import Mathlib

/-!
Shallow embedding of the parallel-condensing Riccati solver ("gar" module) and
related solver-facing components of the aligator trajectory-optimization
library, together with proofs of the specification claims about them.

Matrices are modelled as dense rational-valued arrays with explicit
dimensions; C++ `std::vector` objects become Lean lists, `operator[]`
assignment becomes `List.set`, and the container loops become folds over
index ranges, mirroring the source loops statement by statement.
-/

namespace AligatorSpec

/-! ## List index helper lemmas -/

theorem getD_eq_getElem? {α : Type} (l : List α) (i : Nat) (d : α) :
    l.getD i d = (l[i]?).getD d := by
  simp [List.getD_eq_getElem?_getD]

theorem getElem?_set_self {α : Type} (l : List α) (i : Nat) (a : α)
    (h : i < l.length) : (l.set i a)[i]? = some a := by
  simp [List.getElem?_set_self, h]

theorem getElem?_set_ne {α : Type} (l : List α) {i j : Nat} (a : α)
    (h : i ≠ j) : (l.set i a)[j]? = l[j]? := by
  simp [List.getElem?_set_ne, h]

theorem getD_set_self {α : Type} (l : List α) (i : Nat) (a d : α)
    (h : i < l.length) : (l.set i a).getD i d = a := by
  rw [getD_eq_getElem?, getElem?_set_self l i a h]; rfl

theorem getD_set_ne {α : Type} (l : List α) {i j : Nat} (a d : α)
    (h : i ≠ j) : (l.set i a).getD j d = l.getD j d := by
  rw [getD_eq_getElem?, getD_eq_getElem?, getElem?_set_ne l a h]

/-- A fold over an index list leaves position `j` untouched when every step
does. -/
theorem foldl_getElem?_keep {α β : Type} (f : List α → β → List α)
    (is : List β) (l : List α) (j : Nat)
    (h : ∀ acc i, i ∈ is → ((f acc i)[j]? = acc[j]?)) :
    (is.foldl f l)[j]? = l[j]? := by
  induction is generalizing l with
  | nil => rfl
  | cons i is ih =>
      rw [List.foldl_cons, ih (f l i) fun acc t ht => h acc t (List.mem_cons_of_mem i ht)]
      exact h l i (List.mem_cons_self i is)

/-- A fold over an index list preserves the list length when every step
does. -/
theorem foldl_length_keep {α β : Type} (f : List α → β → List α)
    (is : List β) (l : List α)
    (h : ∀ acc i, i ∈ is → ((f acc i).length = acc.length)) :
    (is.foldl f l).length = l.length := by
  induction is generalizing l with
  | nil => rfl
  | cons i is ih =>
      rw [List.foldl_cons, ih (f l i) fun acc t ht => h acc t (List.mem_cons_of_mem i ht)]
      exact h l i (List.mem_cons_self i is)

/-- Peeling a fold at a distinguished iteration `k`: if no later iteration
touches position `j`, the final value at `j` is the one right after step `k`. -/
theorem foldl_getElem?_last {α β : Type} (f : List α → β → List α)
    (pre post : List β) (k : β) (l : List α) (j : Nat)
    (h : ∀ acc i, i ∈ post → ((f acc i)[j]? = acc[j]?)) :
    ((pre ++ k :: post).foldl f l)[j]? = (f (pre.foldl f l) k)[j]? := by
  rw [List.foldl_append, List.foldl_cons]
  exact foldl_getElem?_keep f post (f (pre.foldl f l) k) j h

/-- Splitting `List.range n` around a position `k < n`. -/
theorem range_split (k n : Nat) (h : k < n) :
    List.range n = List.range k ++ k :: List.range' (k + 1) (n - k - 1) := by
  have h1 : List.range' k (n - k) = k :: List.range' (k + 1) (n - k - 1) := by
    have hnk : n - k = (n - k - 1) + 1 := by omega
    conv_lhs => rw [hnk]
    rw [List.range'_succ]
  have h2 : List.range' 0 k ++ List.range' k (n - k) = List.range' 0 n := by
    have := List.range'_append 0 k (n - k) 1
    simpa [Nat.add_comm, Nat.sub_add_cancel (Nat.le_of_lt h)] using this
  rw [List.range_eq_range', ← h2, h1, List.range_eq_range']

theorem mem_range'_bounds {s n i : Nat} (h : i ∈ List.range' s n) :
    s ≤ i ∧ i < s + n := by
  rw [List.mem_range'_1] at h; exact h

/-! ## Matrix model

Dense matrices over `ℚ` with explicit row/column counts; only the operations
the solver source uses are provided. -/

structure Mat where
  rows : Nat
  cols : Nat
  entry : Nat → Nat → ℚ

def Mat.transpose (m : Mat) : Mat :=
  { rows := m.cols, cols := m.rows, entry := fun i j => m.entry j i }

def Mat.smul (c : ℚ) (m : Mat) : Mat :=
  { rows := m.rows, cols := m.cols, entry := fun i j => c * m.entry i j }

def Mat.identity (n : Nat) : Mat :=
  { rows := n, cols := n, entry := fun i j => if i = j then 1 else 0 }

def Mat.zeroes (r c : Nat) : Mat :=
  { rows := r, cols := c, entry := fun _ _ => 0 }

/-- A default-constructed (empty) Eigen matrix. -/
def matDefault : Mat := Mat.zeroes 0 0

/-! ## LQ knot, problem, and Riccati stage factor data model -/

/-- One time-step's worth of LQ data (`LQRKnotTpl`). -/
structure Knot where
  nx : Nat
  nu : Nat
  nc : Nat
  nth : Nat
  Q : Mat
  R : Mat
  S : Mat
  q : Mat
  r : Mat
  A : Mat
  B : Mat
  E : Mat
  f : Mat
  C : Mat
  D : Mat
  d : Mat
  Gx : Mat
  Gu : Mat
  Gamma : Mat
  gamma : Mat

def knotDefault : Knot :=
  { nx := 0, nu := 0, nc := 0, nth := 0
    Q := matDefault, R := matDefault, S := matDefault, q := matDefault
    r := matDefault, A := matDefault, B := matDefault, E := matDefault
    f := matDefault, C := matDefault, D := matDefault, d := matDefault
    Gx := matDefault, Gu := matDefault, Gamma := matDefault, gamma := matDefault }

/-- Value-function blocks of a Riccati stage factor (`value_t`). -/
structure ValueData where
  Pmat : Mat
  pvec : Mat
  Vtt : Mat
  Vxt : Mat
  vt : Mat

/-- Per-knot Riccati workspace (`StageFactor`). -/
structure StageFactor where
  nx : Nat
  nu : Nat
  nc : Nat
  nth : Nat
  vm : ValueData

/-- A freshly allocated stage factor (`StageFactor(nx, nu, nc, nth)`):
dimensions recorded, value blocks zero-allocated. -/
def StageFactor.make (nx nu nc nth : Nat) : StageFactor :=
  { nx := nx, nu := nu, nc := nc, nth := nth
    vm := { Pmat := Mat.zeroes nx nx, pvec := Mat.zeroes nx 1
            Vtt := Mat.zeroes nth nth, Vxt := Mat.zeroes nx nth
            vt := Mat.zeroes nth 1 } }

def sfDefault : StageFactor := StageFactor.make 0 0 0 0

/-- LQ problem (`LQRProblemTpl`): initial constraint `(G0, g0)` and the knot
sequence. `horizon()` is `stages.size() - 1`. -/
structure LQRProblem where
  stages : List Knot
  G0 : Mat
  g0 : Mat

def LQRProblem.horizon (p : LQRProblem) : Nat := p.stages.length - 1

def LQRProblem.nc0 (p : LQRProblem) : Nat := p.G0.rows

/-! ## Split indices (`ParallelRiccatiSolver` constructor) and `checkIndices` -/

/-- The split indices computed by the `ParallelRiccatiSolver` constructor:
`splitIdx[i] = i * (N + 1) / num_legs` for `i < num_legs` (C++ unsigned
division) and `splitIdx[num_legs] = N + 1`. -/
def mkSplitIdx (N numLegs : Nat) : List Nat :=
  (List.range numLegs).map (fun i => i * (N + 1) / numLegs) ++ [N + 1]

/-- `ParallelRiccatiSolver::checkIndices`: `splitIdx[0]` must be `0` and the
indices strictly increasing over the legs. -/
def checkIndices (numLegs : Nat) (splitIdx : List Nat) : Bool :=
  if splitIdx.getD 0 0 ≠ 0 then false
  else (List.range numLegs).all fun i => splitIdx.getD i 0 < splitIdx.getD (i + 1) 0

/-! ## Knot parameterization and leg construction -/

/-- Modelled from the spec: `LQRKnotTpl::addParameterization(nth)` (its body is
outside the sources in view) allocates the parameter blocks `Gx, Gu` (and the
remaining parameterization blocks `Gamma, gamma`) at the new dimension and
sets `nth`; all other knot fields are untouched. -/
def Knot.addParameterization (k : Knot) (n : Nat) : Knot :=
  { k with nth := n
           Gx := Mat.zeroes n k.nx
           Gu := Mat.zeroes n k.nu
           Gamma := Mat.zeroes n n
           gamma := Mat.zeroes n 1 }

/-- Modelled from the spec: `LQRProblemTpl::addParameterization` applies
`addParameterization` to every stage of the problem. -/
def LQRProblem.addParameterization (p : LQRProblem) (n : Nat) : LQRProblem :=
  { p with stages := p.stages.map (fun k => k.addParameterization n) }

/-- One iteration of the `buildLeg` loop body: if not the last leg, the knot
at time `t` is reparameterized on its own state dimension; a stage factor
with the knot's dimensions is appended either way. -/
def buildLegStep (lastLeg : Bool) (acc : List Knot × List StageFactor)
    (t : Nat) : List Knot × List StageFactor :=
  let knot := acc.1.getD t knotDefault
  let knot1 := if lastLeg then knot else knot.addParameterization knot.nx
  (acc.1.set t knot1,
   acc.2 ++ [StageFactor.make knot1.nx knot1.nu knot1.nc knot1.nth])

/-- `ParallelRiccatiSolver::buildLeg(start, end, last_leg)`: loop the knots of
`[start, end)`, then (for a non-final leg) set the last knot's parameter
blocks `Gx = A^T`, `Gu = B^T`, `gamma = f`. -/
def buildLeg (stages : List Knot) (datas : List StageFactor)
    (start stop : Nat) (lastLeg : Bool) : List Knot × List StageFactor :=
  let looped := (List.range' start (stop - start)).foldl (buildLegStep lastLeg)
    (stages, datas)
  if lastLeg then looped
  else
    let knot := looped.1.getD (stop - 1) knotDefault
    (looped.1.set (stop - 1)
      { knot with Gx := knot.A.transpose, Gu := knot.B.transpose
                  gamma := knot.f },
     looped.2)

/-! ## Condensed KKT system assembly -/

/-- Sparse representation of the condensed KKT system
(`condensed_system_t`). -/
structure CondensedSystem where
  subdiagonal : List Mat
  diagonal : List Mat
  superdiagonal : List Mat

/-- Loop body filling the condensed diagonal blocks for leg `i`:
`diagonal[2(i+1)] = Vtt` at the leg head, `diagonal[2(i+1)+1] = Pmat` at the
next leg's head. -/
def condensedDiagStep (splitIdx : List Nat) (datas : List StageFactor)
    (acc : List Mat) (i : Nat) : List Mat :=
  let i0 := splitIdx.getD i 0
  let i1 := splitIdx.getD (i + 1) 0
  (acc.set (2 * (i + 1)) (datas.getD i0 sfDefault).vm.Vtt).set
    (2 * (i + 1) + 1) (datas.getD i1 sfDefault).vm.Pmat

/-- Loop body filling the condensed superdiagonal blocks for leg `i`:
`superdiagonal[2(i+1)] = E` of the next leg's first knot and, when another
leg follows, `superdiagonal[2(i+1)+1] = Vxt` at the next leg's head. -/
def condensedSuperStep (numLegs : Nat) (splitIdx : List Nat)
    (stages : List Knot) (datas : List StageFactor)
    (acc : List Mat) (i : Nat) : List Mat :=
  let i1 := splitIdx.getD (i + 1) 0
  let acc1 := acc.set (2 * (i + 1)) (stages.getD i1 knotDefault).E
  if i + 1 + 1 < numLegs then
    acc1.set (2 * (i + 1) + 1) (datas.getD i1 sfDefault).vm.Vxt
  else acc1

/-- Loop body filling the condensed right-hand side for leg `i`:
`rhs[2(i+1)] = vt` at the leg head, `rhs[2(i+1)+1] = pvec` at the next leg's
head. -/
def condensedRhsStep (splitIdx : List Nat) (datas : List StageFactor)
    (acc : List Mat) (i : Nat) : List Mat :=
  let i0 := splitIdx.getD i 0
  let i1 := splitIdx.getD (i + 1) 0
  (acc.set (2 * (i + 1)) (datas.getD i0 sfDefault).vm.vt).set
    (2 * (i + 1) + 1) (datas.getD i1 sfDefault).vm.pvec

/-- The condensed diagonal: `2*numLegs` blocks, `diagonal[0] =
-mudyn * I(nc0)`, `diagonal[1] = Pmat` of the first stage factor, then the
per-leg loop. -/
def condensedDiagonal (numLegs : Nat) (splitIdx : List Nat)
    (datas : List StageFactor) (G0 : Mat) (mudyn : ℚ) : List Mat :=
  let nc0 := G0.rows
  let base := ((List.replicate (2 * numLegs) matDefault).set 0
    (Mat.smul (-mudyn) (Mat.identity nc0))).set 1
    (datas.getD 0 sfDefault).vm.Pmat
  (List.range (numLegs - 1)).foldl (condensedDiagStep splitIdx datas) base

/-- The condensed superdiagonal: `2*numLegs - 1` blocks,
`superdiagonal[0] = G0`, `superdiagonal[1] = Vxt` of the first stage factor,
then the per-leg loop. -/
def condensedSuperdiagonal (numLegs : Nat) (splitIdx : List Nat)
    (stages : List Knot) (datas : List StageFactor) (G0 : Mat) : List Mat :=
  let base := ((List.replicate (2 * numLegs - 1) matDefault).set 0 G0).set 1
    (datas.getD 0 sfDefault).vm.Vxt
  (List.range (numLegs - 1)).foldl
    (condensedSuperStep numLegs splitIdx stages datas) base

/-- The condensed right-hand side before negation: `rhs[0] = g0`,
`rhs[1] = pvec` of the first stage factor, then the per-leg loop. -/
def condensedRhsPre (numLegs : Nat) (splitIdx : List Nat)
    (datas : List StageFactor) (g0 : Mat) : List Mat :=
  let base := ((List.replicate (2 * numLegs) matDefault).set 0 g0).set 1
    (datas.getD 0 sfDefault).vm.pvec
  (List.range (numLegs - 1)).foldl (condensedRhsStep splitIdx datas) base

/-- `ParallelRiccatiSolver::assembleCondensedSystem(mudyn)`: build the
condensed block-tridiagonal system (`2*numLegs` diagonal blocks, the
subdiagonal being the blockwise transpose of the superdiagonal) and the
negated right-hand side from the per-leg value-function data. -/
def assembleCondensedSystem (numLegs : Nat) (splitIdx : List Nat)
    (stages : List Knot) (datas : List StageFactor) (G0 g0 : Mat)
    (mudyn : ℚ) : CondensedSystem × List Mat :=
  let diagonal := condensedDiagonal numLegs splitIdx datas G0 mudyn
  let superdiagonal := condensedSuperdiagonal numLegs splitIdx stages datas G0
  let subdiagonal := superdiagonal.map Mat.transpose
  let rhs := condensedRhsPre numLegs splitIdx datas g0
  (⟨subdiagonal, diagonal, superdiagonal⟩, rhs.map (Mat.smul (-1)))

/-! ## Parallel backward and forward passes

The serial per-leg backward/forward implementations
(`ProximalRiccatiImpl::backwardImpl` / `forwardImpl`) and the symmetric
block-tridiagonal solve live outside the sources in view; the parallel
driver is embedded parameterized over them.  Each leg owns the exclusive
slice `[splitIdx[i], splitIdx[i+1])` of the stage and workspace arrays. -/

/-- The contiguous slice `[i0, i1)` of a list (`make_span_from_indices`). -/
def sliceOf {α : Type} (l : List α) (i0 i1 : Nat) : List α :=
  (l.drop i0).take (i1 - i0)

/-- Type of the abstract per-leg serial backward pass: takes the leg's stage
view, the penalties, and the leg's workspace view; returns the updated
workspace view and a success flag. -/
def LegBackward : Type :=
  List Knot → ℚ → ℚ → List StageFactor → List StageFactor × Bool

/-- Type of the abstract symmetric block-tridiagonal solve: takes the
condensed system and right-hand side, returns the in-place solution and a
success flag (false on a non-SPD pivot). -/
def TriSolve : Type := CondensedSystem → List Mat → List Mat × Bool

/-- `ParallelRiccatiSolver::backward(mudyn, mueq)`: run the per-leg backward
passes on disjoint slices, reduce their success flags into `ret`, assemble
the condensed system, solve it in place — and then return `true`, ignoring
both `ret` and the tridiagonal solve's outcome. -/
def ParallelRiccatiSolver.backward (legBackward : LegBackward)
    (triSolve : TriSolve) (numLegs : Nat) (splitIdx : List Nat)
    (stages : List Knot) (datas : List StageFactor) (G0 g0 : Mat)
    (mudyn mueq : ℚ) :
    (List StageFactor × CondensedSystem × List Mat) × Bool :=
  let legs := (List.range numLegs).map fun i =>
    legBackward (sliceOf stages (splitIdx.getD i 0) (splitIdx.getD (i + 1) 0))
      mudyn mueq
      (sliceOf datas (splitIdx.getD i 0) (splitIdx.getD (i + 1) 0))
  let _ret := legs.foldl (fun a leg => a && leg.2) true
  let datas1 := legs.flatMap Prod.fst
  let assembled := assembleCondensedSystem numLegs splitIdx stages datas1 G0 g0 mudyn
  let solved := triSolve assembled.1 assembled.2
  ((datas1, assembled.1, solved.1), true)

/-- The distribution loop at the head of `ParallelRiccatiSolver::forward`:
for every leg `i`, `lbdas[splitIdx[i]] = condensedKktRhs[2i]` and
`xs[splitIdx[i]] = condensedKktRhs[2i+1]`.  Returns `(lbdas, xs)`. -/
def distributeCondensed (numLegs : Nat) (splitIdx : List Nat)
    (condensedKktRhs : List Mat) (xs lbdas : List Mat) :
    List Mat × List Mat :=
  (List.range numLegs).foldl
    (fun (acc : List Mat × List Mat) i =>
      let i0 := splitIdx.getD i 0
      (acc.1.set i0 (condensedKktRhs.getD (2 * i) matDefault),
       acc.2.set i0 (condensedKktRhs.getD (2 * i + 1) matDefault)))
    (lbdas, xs)

/-- Type of the abstract per-leg serial forward pass: takes the leg's stage
and workspace views, the leg's `(xs, us, vs, lbdas)` slices and the optional
parameter `θ`; returns the updated slices. -/
def LegForward : Type :=
  List Knot → List StageFactor → List Mat → List Mat → List Mat →
    List Mat → Option Mat → List Mat × List Mat × List Mat × List Mat

/-- The per-leg body of `ParallelRiccatiSolver::forward`: leg `i` runs the
serial forward pass on its slices; every non-final leg passes
`theta1 = lbdas[splitIdx[i+1]]`, the final leg passes no parameter. -/
def forwardLeg (legForward : LegForward) (numLegs : Nat)
    (splitIdx : List Nat) (stages : List Knot) (datas : List StageFactor)
    (xs us vs lbdas : List Mat) (i : Nat) :
    List Mat × List Mat × List Mat × List Mat :=
  let i0 := splitIdx.getD i 0
  let i1 := splitIdx.getD (i + 1) 0
  let theta : Option Mat :=
    if i = numLegs - 1 then none
    else some (lbdas.getD (splitIdx.getD (i + 1) 0) matDefault)
  legForward (sliceOf stages i0 i1) (sliceOf datas i0 i1)
    (sliceOf xs i0 i1) (sliceOf us i0 i1) (sliceOf vs i0 i1)
    (sliceOf lbdas i0 i1) theta

/-- `ParallelRiccatiSolver::forward`: distribute the condensed solution to
the split points, then run the per-leg forward passes on their exclusive
slices (joined back in leg order). -/
def ParallelRiccatiSolver.forward (legForward : LegForward) (numLegs : Nat)
    (splitIdx : List Nat) (stages : List Knot) (datas : List StageFactor)
    (condensedKktRhs : List Mat) (xs us vs lbdas : List Mat) :
    List Mat × List Mat × List Mat × List Mat :=
  let dist := distributeCondensed numLegs splitIdx condensedKktRhs xs lbdas
  let lbdas1 := dist.1
  let xs1 := dist.2
  let legs := (List.range numLegs).map
    (forwardLeg legForward numLegs splitIdx stages datas xs1 us vs lbdas1)
  (legs.flatMap (fun leg => leg.1),
   legs.flatMap (fun leg => leg.2.1),
   legs.flatMap (fun leg => leg.2.2.1),
   legs.flatMap (fun leg => leg.2.2.2))

/-! ## Warm-start checking (`solver-base.hpp`) -/

/-- The slice of a stage model the warm-start logic touches: the neutral
elements of `xspace()`, `uspace()` and `xspace_next()`. -/
structure StageModel where
  xneutral : List ℚ
  uneutral : List ℚ
  xnextNeutral : List ℚ

def stageModelDefault : StageModel :=
  { xneutral := [], uneutral := [], xnextNeutral := [] }

/-- The slice of a trajectory-optimization problem the warm-start logic
touches. -/
structure TrajProblem where
  stages : List StageModel

def TrajProblem.numSteps (p : TrajProblem) : Nat := p.stages.length

/-- `xs_default_init`: state `i < nsteps` is stage `i`'s state-space neutral
element; state `nsteps` is the last stage's next-state-space neutral
element. -/
def xs_default_init (p : TrajProblem) : List (List ℚ) :=
  p.stages.map (fun sm => sm.xneutral) ++
    [(p.stages.getLastD stageModelDefault).xnextNeutral]

/-- `us_default_init`: control `i` is stage `i`'s control-space neutral
element. -/
def us_default_init (p : TrajProblem) : List (List ℚ) :=
  p.stages.map (fun sm => sm.uneutral)

/-- `checkTrajectoryAndAssign`: empty inputs are neutral-initialized,
correctly sized inputs are copied, and any other size raises a runtime
error (modelled with `Except`). -/
def checkTrajectoryAndAssign (p : TrajProblem)
    (xs_init us_init : List (List ℚ)) :
    Except String (List (List ℚ) × List (List ℚ)) :=
  let nsteps := p.numSteps
  if xs_init.length = 0 then
    if us_init.length = 0 then Except.ok (xs_default_init p, us_default_init p)
    else if us_init.length ≠ nsteps then
      Except.error ("warm-start for us has wrong size!")
    else Except.ok (xs_default_init p, us_init)
  else if xs_init.length ≠ nsteps + 1 then
    Except.error ("warm-start for xs has wrong size!")
  else
    if us_init.length = 0 then Except.ok (xs_init, us_default_init p)
    else if us_init.length ≠ nsteps then
      Except.error ("warm-start for us has wrong size!")
    else Except.ok (xs_init, us_init)

/-! ## Constraint proximal scaler and its `setWeights` Python binding -/

/-- Modelled from the spec: `ConstraintProximalScalerTpl` keeps one strictly
positive weight per constraint block; `size()` is the block count and the
underlying `setWeights` replaces the weight vector (its C++ body is outside
the sources in view). -/
structure ProxScaler where
  weights : List ℚ

def ProxScaler.size (s : ProxScaler) : Nat := s.weights.length

/-- Modelled from the spec: the underlying `ProxScaler::setWeights(w)`
member, which stores the supplied weight vector. -/
def ProxScaler.setWeightsRaw (s : ProxScaler) (w : List ℚ) : ProxScaler :=
  { s with weights := w }

/-- The Python `setWeights` binding (`expose-solver-prox.cpp`): on a size
mismatch it sets the Python `ValueError` string — but then calls the
underlying `setWeights(w)` unconditionally.  Returns the raised error (if
any) and the scaler's new state. -/
def setWeightsBinding (s : ProxScaler) (w : List ℚ) :
    Option String × ProxScaler :=
  let err : Option String :=
    if s.size ≠ w.length then some ("Input has wrong dimension.") else none
  (err, s.setWeightsRaw w)

/-! ## Trajectory-optimization problem initial-state accessors -/

/-- `StateErrorResidualTpl`: only the target state matters here. -/
structure StateErrorResidual where
  target : List ℚ

/-- The slice of `TrajOptProblemTpl` its initial-state accessors touch:
`init_state_error_` is `some` exactly when the initial condition is a
`StateErrorResidual`; the remaining fields stand for the stages, terminal
cost and terminal constraint stack. -/
structure TrajOptProblem where
  init_state_error : Option StateErrorResidual
  stages : List StageModel
  term_cost : List ℚ
  term_cstrs : List (List ℚ)

def TrajOptProblem.initCondIsStateError (p : TrajOptProblem) : Bool :=
  p.init_state_error.isSome

def initCondNotStateErrorMsg : String :=
  "Initial condition is not a StateErrorResidual.\n"

/-- `TrajOptProblemTpl::getInitState`: runtime error unless the initial
condition is a state-error residual; otherwise the stored target. -/
def TrajOptProblem.getInitState (p : TrajOptProblem) :
    Except String (List ℚ) :=
  match p.init_state_error with
  | none => Except.error initCondNotStateErrorMsg
  | some e => Except.ok e.target

/-- `TrajOptProblemTpl::setInitState(x0)`: runtime error unless the initial
condition is a state-error residual; otherwise overwrite its target. -/
def TrajOptProblem.setInitState (p : TrajOptProblem) (x0 : List ℚ) :
    Except String TrajOptProblem :=
  match p.init_state_error with
  | none => Except.error initCondNotStateErrorMsg
  | some _ => Except.ok { p with init_state_error := some { target := x0 } }

/-! ## Specification predicates for the claims -/

/-- The post-construction property of the split indices, and the exact
failure condition of `checkIndices`. -/
def splitIdxSpec (N J : Nat) : Prop :=
  (mkSplitIdx N J).getD 0 0 = 0 ∧
  (mkSplitIdx N J).getD J 0 = N + 1 ∧
  (∀ i, i < J → (mkSplitIdx N J).getD i 0 < (mkSplitIdx N J).getD (i + 1) 0) ∧
  checkIndices J (mkSplitIdx N J) = true ∧
  (∀ (J2 : Nat) (s : List Nat),
    checkIndices J2 s = false ↔
      s.getD 0 0 ≠ 0 ∨ ∃ i, i < J2 ∧ s.getD i 0 ≥ s.getD (i + 1) 0)

/-- What claim C10 asserts of `getInitState` / `setInitState` at a given
problem and target state. -/
def initStateAccessorSpec (p : TrajOptProblem) (x0 : List ℚ) : Prop :=
  ((∃ e, p.getInitState = Except.error e) ↔ p.initCondIsStateError = false) ∧
  ((∃ e, p.setInitState x0 = Except.error e) ↔
    p.initCondIsStateError = false) ∧
  (∀ e, p.init_state_error = some e → p.getInitState = Except.ok e.target) ∧
  (∀ e, p.init_state_error = some e →
    p.setInitState x0 =
      Except.ok { p with init_state_error := some { target := x0 } })

/-- What claim C7 asserts of the warm-start check at a given problem and
initial guesses: the call fails exactly when a non-empty input has the wrong
size; empty inputs are neutral-initialized entrywise and correctly sized
inputs are copied unchanged. -/
def warmStartSpec (p : TrajProblem) (xs_init us_init : List (List ℚ)) : Prop :=
  ((∃ e, checkTrajectoryAndAssign p xs_init us_init = Except.error e) ↔
    (xs_init ≠ [] ∧ xs_init.length ≠ p.numSteps + 1) ∨
      (us_init ≠ [] ∧ us_init.length ≠ p.numSteps)) ∧
  (xs_init = [] → us_init = [] →
    checkTrajectoryAndAssign p xs_init us_init =
      Except.ok (xs_default_init p, us_default_init p)) ∧
  (xs_init = [] → us_init.length = p.numSteps →
    checkTrajectoryAndAssign p xs_init us_init =
      Except.ok (xs_default_init p, us_init)) ∧
  (xs_init.length = p.numSteps + 1 → us_init = [] →
    checkTrajectoryAndAssign p xs_init us_init =
      Except.ok (xs_init, us_default_init p)) ∧
  (xs_init.length = p.numSteps + 1 → us_init.length = p.numSteps →
    checkTrajectoryAndAssign p xs_init us_init =
      Except.ok (xs_init, us_init)) ∧
  (xs_default_init p).length = p.numSteps + 1 ∧
  (∀ i, i < p.numSteps → (xs_default_init p)[i]? =
    some (p.stages.getD i stageModelDefault).xneutral) ∧
  (xs_default_init p)[p.numSteps]? =
    some (p.stages.getLastD stageModelDefault).xnextNeutral ∧
  (us_default_init p).length = p.numSteps ∧
  (∀ i, i < p.numSteps → (us_default_init p)[i]? =
    some (p.stages.getD i stageModelDefault).uneutral)

/-- A concrete one-stage problem used to witness claim C7. -/
def demoTrajProblem : TrajProblem :=
  { stages := [{ xneutral := [0], uneutral := [0], xnextNeutral := [0] }] }

/-- The stage-array effect of one `buildLeg` loop iteration (the first
component of `buildLegStep`). -/
def knotParamStep (lastLeg : Bool) (s : List Knot) (t : Nat) : List Knot :=
  let knot := s.getD t knotDefault
  let knot1 := if lastLeg then knot else knot.addParameterization knot.nx
  s.set t knot1

/-- What claim C4 asserts of a non-final leg after `buildLeg`: the last knot
of the leg carries the costate parameterization. -/
def buildLegLastKnotSpec (stages : List Knot) (datas : List StageFactor)
    (start stop : Nat) : Prop :=
  let k0 := stages.getD (stop - 1) knotDefault
  let res := (buildLeg stages datas start stop false).1.getD (stop - 1)
    knotDefault
  res.Gx = k0.A.transpose ∧ res.Gu = k0.B.transpose ∧
    res.gamma = k0.f ∧ res.nth = k0.nx

/-- A concrete two-knot stage list used to witness claim C4. -/
def demoKnot : Knot :=
  { knotDefault with nx := 2, A := Mat.identity 2, B := Mat.zeroes 2 1
                     f := Mat.zeroes 2 1 }

def demoStages : List Knot := [demoKnot, demoKnot]

/-- What claim C3 asserts of the assembled condensed system: block placement
of the head entries, blockwise-transposed subdiagonal, and the interleaved,
negated right-hand side. -/
def condensedSystemSpec (numLegs : Nat) (splitIdx : List Nat)
    (stages : List Knot) (datas : List StageFactor) (G0 g0 : Mat)
    (mudyn : ℚ) : Prop :=
  let out := assembleCondensedSystem numLegs splitIdx stages datas G0 g0 mudyn
  out.1.diagonal.length = 2 * numLegs ∧
  out.1.superdiagonal.length = 2 * numLegs - 1 ∧
  out.1.subdiagonal.length = 2 * numLegs - 1 ∧
  out.2.length = 2 * numLegs ∧
  out.1.diagonal.getD 0 matDefault =
    Mat.smul (-mudyn) (Mat.identity G0.rows) ∧
  out.1.superdiagonal.getD 0 matDefault = G0 ∧
  out.1.diagonal.getD 1 matDefault = (datas.getD 0 sfDefault).vm.Pmat ∧
  out.1.superdiagonal.getD 1 matDefault = (datas.getD 0 sfDefault).vm.Vxt ∧
  (∀ i, i < 2 * numLegs - 1 →
    out.1.subdiagonal.getD i matDefault =
      (out.1.superdiagonal.getD i matDefault).transpose) ∧
  out.2.getD 0 matDefault = Mat.smul (-1) g0 ∧
  out.2.getD 1 matDefault = Mat.smul (-1) (datas.getD 0 sfDefault).vm.pvec ∧
  (∀ i, i < numLegs - 1 →
    out.2.getD (2 * (i + 1)) matDefault =
      Mat.smul (-1) (datas.getD (splitIdx.getD i 0) sfDefault).vm.vt ∧
    out.2.getD (2 * (i + 1) + 1) matDefault =
      Mat.smul (-1) (datas.getD (splitIdx.getD (i + 1) 0) sfDefault).vm.pvec)

/-- What claim C6 asserts of the forward pass: the condensed solution is
distributed as `(λ, x)` pairs at the split points, and each leg's forward
runs with `θ` equal to the next leg's distributed multiplier — which is
condensed block `2(i+1)` — the final leg running with no `θ`. -/
def forwardSpec (legForward : LegForward) (numLegs : Nat)
    (splitIdx : List Nat) (stages : List Knot) (datas : List StageFactor)
    (condensedKktRhs : List Mat) (xs us vs lbdas : List Mat) : Prop :=
  let dist := distributeCondensed numLegs splitIdx condensedKktRhs xs lbdas
  (∀ i, i < numLegs →
    dist.1.getD (splitIdx.getD i 0) matDefault =
      condensedKktRhs.getD (2 * i) matDefault ∧
    dist.2.getD (splitIdx.getD i 0) matDefault =
      condensedKktRhs.getD (2 * i + 1) matDefault) ∧
  ParallelRiccatiSolver.forward legForward numLegs splitIdx stages datas
      condensedKktRhs xs us vs lbdas =
    (let legs := (List.range numLegs).map fun i =>
      legForward
        (sliceOf stages (splitIdx.getD i 0) (splitIdx.getD (i + 1) 0))
        (sliceOf datas (splitIdx.getD i 0) (splitIdx.getD (i + 1) 0))
        (sliceOf dist.2 (splitIdx.getD i 0) (splitIdx.getD (i + 1) 0))
        (sliceOf us (splitIdx.getD i 0) (splitIdx.getD (i + 1) 0))
        (sliceOf vs (splitIdx.getD i 0) (splitIdx.getD (i + 1) 0))
        (sliceOf dist.1 (splitIdx.getD i 0) (splitIdx.getD (i + 1) 0))
        (if i = numLegs - 1 then none
         else some (condensedKktRhs.getD (2 * (i + 1)) matDefault))
     (legs.flatMap (fun leg => leg.1), legs.flatMap (fun leg => leg.2.1),
      legs.flatMap (fun leg => leg.2.2.1),
      legs.flatMap (fun leg => leg.2.2.2)))

/-- A trivial per-leg forward pass used to witness claim C6. -/
def demoLegForward : LegForward := fun _ _ _ _ _ _ _ => ([], [], [], [])

/-! ## Facts about the split indices (claim C5) -/

theorem mkSplitIdx_getD_lt (N J i : Nat) (h : i < J) :
    (mkSplitIdx N J).getD i 0 = i * (N + 1) / J := by
  rw [mkSplitIdx, getD_eq_getElem?]
  simp [List.getElem?_append, h]

theorem mkSplitIdx_getD_last (N J : Nat) :
    (mkSplitIdx N J).getD J 0 = N + 1 := by
  rw [mkSplitIdx, getD_eq_getElem?]
  rw [List.getElem?_append_right (by simp)]
  simp

theorem mkSplitIdx_strict_mono (N J i : Nat) (hJ : 1 ≤ J) (hN : J ≤ N + 1)
    (hi : i < J) :
    (mkSplitIdx N J).getD i 0 < (mkSplitIdx N J).getD (i + 1) 0 := by
  rw [mkSplitIdx_getD_lt N J i hi]
  rcases Nat.lt_or_ge (i + 1) J with h1 | h1
  · rw [mkSplitIdx_getD_lt N J (i + 1) h1]
    have step : i * (N + 1) / J + 1 ≤ (i * (N + 1) + J) / J := by
      rw [Nat.add_div_right _ (Nat.lt_of_lt_of_le Nat.zero_lt_one hJ)]
    refine Nat.lt_of_lt_of_le (Nat.lt_of_lt_of_le (Nat.lt_succ_self _) step) ?_
    exact Nat.div_le_div_right (by nlinarith)
  · have hiJ : i + 1 = J := Nat.le_antisymm hi h1
    rw [hiJ, mkSplitIdx_getD_last]
    rw [Nat.div_lt_iff_lt_mul (Nat.lt_of_lt_of_le Nat.zero_lt_one hJ)]
    have : i < J := hi
    nlinarith

theorem checkIndices_true_iff (J2 : Nat) (s : List Nat) :
    checkIndices J2 s = true ↔
      s.getD 0 0 = 0 ∧ ∀ i, i < J2 → s.getD i 0 < s.getD (i + 1) 0 := by
  rw [checkIndices]
  by_cases h0 : s.getD 0 0 = 0
  · rw [if_neg (by simpa using h0)]
    simp only [List.all_eq_true, List.mem_range, decide_eq_true_eq]
    exact ⟨fun h => ⟨h0, h⟩, fun h => h.2⟩
  · rw [if_pos (by simpa using h0)]
    exact ⟨fun h => absurd h Bool.false_ne_true, fun h => absurd h.1 h0⟩

theorem checkIndices_false_iff (J2 : Nat) (s : List Nat) :
    checkIndices J2 s = false ↔
      s.getD 0 0 ≠ 0 ∨ ∃ i, i < J2 ∧ s.getD i 0 ≥ s.getD (i + 1) 0 := by
  rw [Bool.eq_false_iff, Ne, checkIndices_true_iff, not_and_or]
  push_neg
  simp [Nat.not_lt]

/-- Claim C5 as stated is false: with horizon `N = 1` and `num_legs = 3` the
constructor's split indices are `[0, 0, 1, 2]`, which are not strictly
increasing, and `checkIndices()` returns `false`. -/
theorem checkIndices_counterexample :
    checkIndices 3 (mkSplitIdx 1 3) = false := by decide

/-- Claim C5 (corrected): when `1 ≤ num_legs ≤ N + 1`, the constructed split
indices satisfy `splitIdx[0] = 0`, `splitIdx[num_legs] = N + 1` and strict
increase, so `checkIndices()` returns `true`; and for any index vector,
`checkIndices()` returns `false` exactly when `splitIdx[0] ≠ 0` or some
`splitIdx[i] ≥ splitIdx[i+1]` with `i < num_legs`. -/
theorem splitIdx_checkIndices_spec (N J : Nat) (h1 : 1 ≤ J)
    (h2 : J ≤ N + 1) : splitIdxSpec N J := by
  have hz : (mkSplitIdx N J).getD 0 0 = 0 := by
    rw [mkSplitIdx_getD_lt N J 0 (Nat.lt_of_lt_of_le Nat.zero_lt_one h1)]
    simp
  have hmono : ∀ i, i < J →
      (mkSplitIdx N J).getD i 0 < (mkSplitIdx N J).getD (i + 1) 0 :=
    fun i hi => mkSplitIdx_strict_mono N J i h1 h2 hi
  refine ⟨hz, mkSplitIdx_getD_last N J, hmono, ?_, checkIndices_false_iff⟩
  rw [checkIndices_true_iff]
  exact ⟨hz, hmono⟩

/-- Witness for claim C5's corrected theorem at `N = 7`, `num_legs = 4`. -/
theorem splitIdx_checkIndices_spec_witness :
    1 ≤ 4 ∧ 4 ≤ 7 + 1 ∧ splitIdxSpec 7 4 :=
  ⟨by decide, by decide, splitIdx_checkIndices_spec 7 4 (by decide) (by decide)⟩

/-! ## Claim C1: the parallel backward pass returns true unconditionally -/

/-- Claim C1: `ParallelRiccatiSolver::backward(mudyn, mueq)` returns `true`
for every problem, every leg count, every per-leg backward implementation
and every tridiagonal solve — the reduced leg flag and the condensed
solve's outcome are both discarded. -/
theorem parallel_backward_returns_true (legBackward : LegBackward)
    (triSolve : TriSolve) (numLegs : Nat) (splitIdx : List Nat)
    (stages : List Knot) (datas : List StageFactor) (G0 g0 : Mat)
    (mudyn mueq : ℚ) :
    (ParallelRiccatiSolver.backward legBackward triSolve numLegs splitIdx
      stages datas G0 g0 mudyn mueq).2 = true := rfl

/-! ## Claim C8: the `setWeights` binding on a size mismatch -/

/-- Claim C8 at the failing input: for a scaler holding two weight blocks and
a three-entry weight vector, the Python binding records the `ValueError`
string, yet still forwards the ill-sized vector to the underlying
`setWeights`, so the stored weights change (contradicting the claim that
they are left unchanged). -/
theorem setWeightsBinding_failing_input :
    (setWeightsBinding ⟨[1, 1]⟩ [1, 2, 3]).1 =
        some ("Input has wrong dimension.") ∧
      (setWeightsBinding ⟨[1, 1]⟩ [1, 2, 3]).2.weights = [1, 2, 3] ∧
      (setWeightsBinding ⟨[1, 1]⟩ [1, 2, 3]).2.weights ≠ [1, 1] := by
  refine ⟨rfl, rfl, ?_⟩
  decide

/-! ## Claim C9: `addParameterization` allocates `Gx, Gu` and nothing else -/

/-- Claim C9: `addParameterization(n)` on a knot allocates the parameter
blocks `Gx, Gu` (zero-sized by `n`) and records `nth = n`, while the blocks
`Q, R, q, r, A, B, E, f` are unchanged; consequently `addParameterization`
on a whole LQ problem leaves every stage's `Q` equal to its prior value. -/
theorem addParameterization_frame (k : Knot) (n : Nat) (p : LQRProblem) :
    (k.addParameterization n).Q = k.Q ∧
      (k.addParameterization n).R = k.R ∧
      (k.addParameterization n).q = k.q ∧
      (k.addParameterization n).r = k.r ∧
      (k.addParameterization n).A = k.A ∧
      (k.addParameterization n).B = k.B ∧
      (k.addParameterization n).E = k.E ∧
      (k.addParameterization n).f = k.f ∧
      (k.addParameterization n).Gx = Mat.zeroes n k.nx ∧
      (k.addParameterization n).Gu = Mat.zeroes n k.nu ∧
      (k.addParameterization n).nth = n ∧
      ∀ i, ((p.addParameterization n).stages.getD i knotDefault).Q =
        (p.stages.getD i knotDefault).Q := by
  refine ⟨rfl, rfl, rfl, rfl, rfl, rfl, rfl, rfl, rfl, rfl, rfl, fun i => ?_⟩
  rw [LQRProblem.addParameterization, getD_eq_getElem?, getD_eq_getElem?]
  rw [List.getElem?_map]
  cases p.stages[i]? with
  | none => rfl
  | some a => rfl

/-! ## Claim C10: initial-state accessors of the trajectory problem -/

/-- Claim C10: `getInitState()` and `setInitState(x0)` raise exactly when the
initial condition is not a `StateErrorResidual`; otherwise `getInitState`
returns the stored target and `setInitState` overwrites only that target,
leaving stages, terminal cost and terminal constraints unchanged (the
structure update touches no other field). -/
theorem initState_accessors_spec (p : TrajOptProblem) (x0 : List ℚ) :
    initStateAccessorSpec p x0 := by
  cases hp : p.init_state_error with
  | none =>
      refine ⟨?_, ?_, ?_, ?_⟩
      · simp [TrajOptProblem.getInitState, TrajOptProblem.initCondIsStateError, hp]
      · simp [TrajOptProblem.setInitState, TrajOptProblem.initCondIsStateError, hp]
      · intro e he; rw [hp] at he; cases he
      · intro e he; rw [hp] at he; cases he
  | some e0 =>
      refine ⟨?_, ?_, ?_, ?_⟩
      · simp [TrajOptProblem.getInitState, TrajOptProblem.initCondIsStateError, hp]
      · simp [TrajOptProblem.setInitState, TrajOptProblem.initCondIsStateError, hp]
      · intro e he
        rw [hp] at he
        cases he
        simp [TrajOptProblem.getInitState, hp]
      · intro e he
        simp [TrajOptProblem.setInitState, hp]

/-- Witness for claim C10's theorem at a concrete problem whose initial
condition is a state-error residual with target `[1, 2]`. -/
theorem initState_accessors_spec_witness :
    initStateAccessorSpec
      { init_state_error := some { target := [1, 2] }
        stages := [], term_cost := [], term_cstrs := [] } [3, 4] :=
  initState_accessors_spec
    { init_state_error := some { target := [1, 2] }
      stages := [], term_cost := [], term_cstrs := [] } [3, 4]

/-! ## Claim C7: the warm-start size check -/

theorem xs_default_init_length (p : TrajProblem) :
    (xs_default_init p).length = p.numSteps + 1 := by
  simp [xs_default_init, TrajProblem.numSteps]

theorem xs_default_init_getElem_lt (p : TrajProblem) :
    ∀ i, i < p.numSteps → (xs_default_init p)[i]? =
      some (p.stages.getD i stageModelDefault).xneutral := by
  intro i h
  have h2 : i < p.stages.length := h
  rw [xs_default_init, List.getElem?_append_left (by simpa using h2)]
  rw [List.getElem?_map, getD_eq_getElem?, List.getElem?_eq_getElem h2]
  rfl

theorem xs_default_init_getElem_last (p : TrajProblem) :
    (xs_default_init p)[p.numSteps]? =
      some (p.stages.getLastD stageModelDefault).xnextNeutral := by
  rw [xs_default_init, List.getElem?_append_right (by simp [TrajProblem.numSteps])]
  simp [TrajProblem.numSteps]

theorem us_default_init_length (p : TrajProblem) :
    (us_default_init p).length = p.numSteps := by
  simp [us_default_init, TrajProblem.numSteps]

theorem us_default_init_getElem_lt (p : TrajProblem) :
    ∀ i, i < p.numSteps → (us_default_init p)[i]? =
      some (p.stages.getD i stageModelDefault).uneutral := by
  intro i h
  have h2 : i < p.stages.length := h
  rw [us_default_init, List.getElem?_map, getD_eq_getElem?,
    List.getElem?_eq_getElem h2]
  rfl

/-- Claim C7: the warm-start check of `run` accepts `xs_init`/`us_init`
exactly when they are empty or sized `N+1`/`N`; empty inputs yield
neutral-initialized trajectories, wrong-sized non-empty inputs raise, and
correctly sized inputs are copied unchanged. -/
theorem warm_start_check_spec (p : TrajProblem)
    (xs_init us_init : List (List ℚ)) (hn : 0 < p.stages.length) :
    warmStartSpec p xs_init us_init := by
  have hns : 0 < p.numSteps := hn
  have hnz : p.numSteps ≠ 0 := Nat.pos_iff_ne_zero.mp hns
  refine ⟨?_, ?_, ?_, ?_, ?_, xs_default_init_length p,
    xs_default_init_getElem_lt p, xs_default_init_getElem_last p,
    us_default_init_length p, us_default_init_getElem_lt p⟩
  · by_cases hx0 : xs_init.length = 0
    · have hxe : xs_init = [] := List.length_eq_zero.mp hx0
      by_cases hu0 : us_init.length = 0
      · have hue : us_init = [] := List.length_eq_zero.mp hu0
        simp [checkTrajectoryAndAssign, hxe, hue]
      · have hune : us_init ≠ [] := fun h => hu0 (by simp [h])
        by_cases hus : us_init.length = p.numSteps
        · simp [checkTrajectoryAndAssign, hxe, hu0, hus, hnz]
        · simp [checkTrajectoryAndAssign, hxe, hu0, hus, hune]
    · have hxne : xs_init ≠ [] := fun h => hx0 (by simp [h])
      by_cases hxs : xs_init.length = p.numSteps + 1
      · by_cases hu0 : us_init.length = 0
        · have hue : us_init = [] := List.length_eq_zero.mp hu0
          simp [checkTrajectoryAndAssign, hx0, hxs, hue]
        · have hune : us_init ≠ [] := fun h => hu0 (by simp [h])
          by_cases hus : us_init.length = p.numSteps
          · simp [checkTrajectoryAndAssign, hx0, hxs, hu0, hus, hnz]
          · simp [checkTrajectoryAndAssign, hx0, hxs, hu0, hus, hune]
      · simp [checkTrajectoryAndAssign, hx0, hxs, hxne]
  · intro hxe hue
    simp [checkTrajectoryAndAssign, hxe, hue]
  · intro hxe hus
    have hu0 : us_init.length ≠ 0 := by omega
    simp [checkTrajectoryAndAssign, hxe, hu0, hus, hnz]
  · intro hxs hue
    have hx0 : xs_init.length ≠ 0 := by omega
    simp [checkTrajectoryAndAssign, hx0, hxs, hue]
  · intro hxs hus
    have hx0 : xs_init.length ≠ 0 := by omega
    have hu0 : us_init.length ≠ 0 := by omega
    simp [checkTrajectoryAndAssign, hx0, hxs, hu0, hus, hnz]

/-- Witness for claim C7's theorem at a one-stage problem with empty warm
starts. -/
theorem warm_start_check_spec_witness :
    0 < demoTrajProblem.stages.length ∧ warmStartSpec demoTrajProblem [] [] :=
  ⟨by decide, warm_start_check_spec demoTrajProblem [] [] (by decide)⟩

/-! ## Claim C4: leg construction parameterizes the last knot -/

theorem range'_snoc (s n : Nat) :
    List.range' s (n + 1) = List.range' s n ++ [s + n] := by
  exact List.range'_1_concat s n

theorem buildLeg_fold_fst (lastLeg : Bool) (is : List Nat) (s : List Knot)
    (d : List StageFactor) :
    (is.foldl (buildLegStep lastLeg) (s, d)).1 =
      is.foldl (knotParamStep lastLeg) s := by
  induction is generalizing s d with
  | nil => rfl
  | cons i is ih =>
      exact ih (knotParamStep lastLeg s i) ((buildLegStep lastLeg (s, d) i).2)

theorem knotParamStep_length (lastLeg : Bool) (s : List Knot) (t : Nat) :
    (knotParamStep lastLeg s t).length = s.length := List.length_set s t _

theorem knotParamStep_fold_length (lastLeg : Bool) (is : List Nat)
    (s : List Knot) :
    (is.foldl (knotParamStep lastLeg) s).length = s.length :=
  foldl_length_keep _ is s fun acc i _ => knotParamStep_length lastLeg acc i

theorem knotParamStep_getElem_ne (lastLeg : Bool) (s : List Knot) {t j : Nat}
    (h : t ≠ j) : (knotParamStep lastLeg s t)[j]? = s[j]? :=
  getElem?_set_ne s _ h

/-- After folding the `buildLeg` loop over `[start, start + n)`, the knot at
the last looped index is the reparameterization of the original knot
there. -/
theorem knotParamStep_fold_getD_last (lastLeg : Bool) (start n : Nat)
    (s : List Knot) (hn : 0 < n) (hlen : start + n ≤ s.length) :
    ((List.range' start n).foldl (knotParamStep lastLeg) s).getD
        (start + n - 1) knotDefault =
      (let k := s.getD (start + n - 1) knotDefault
       if lastLeg then k else k.addParameterization k.nx) := by
  have hsplit : List.range' start n =
      List.range' start (n - 1) ++ (start + (n - 1)) :: [] := by
    have := range'_snoc start (n - 1)
    rw [show n - 1 + 1 = n by omega] at this
    simpa using this
  have hj : start + (n - 1) = start + n - 1 := by omega
  rw [hsplit, getD_eq_getElem?, foldl_getElem?_last _ _ _ _ _ _
    (fun acc i hi => absurd hi (List.not_mem_nil i))]
  rw [hj]
  set s1 := (List.range' start (n - 1)).foldl (knotParamStep lastLeg) s with hs1
  have hs1len : s1.length = s.length := knotParamStep_fold_length _ _ _
  have hpre : s1[start + n - 1]? = s[start + n - 1]? := by
    rw [hs1]
    refine foldl_getElem?_keep _ _ _ _ fun acc i hi => ?_
    have hb := mem_range'_bounds hi
    exact knotParamStep_getElem_ne lastLeg acc (by omega)
  rw [knotParamStep, getElem?_set_self _ _ _ (by omega)]
  rw [getD_eq_getElem?, hpre]
  simp only [Option.getD_some, ← getD_eq_getElem?]

/-- Claim C4: after `buildLeg(start, stop, last_leg = false)`, the last knot
of the leg satisfies `Gx = A^T`, `Gu = B^T`, `gamma = f` and `nth = nx`,
where `A, B, f, nx` are the knot's own (unchanged) dynamics blocks and state
dimension. -/
theorem buildLeg_last_knot_spec (stages : List Knot)
    (datas : List StageFactor) (start stop : Nat) (h1 : start < stop)
    (h2 : stop ≤ stages.length) :
    buildLegLastKnotSpec stages datas start stop := by
  rw [buildLegLastKnotSpec, buildLeg]
  simp only [Bool.false_eq_true, if_false]
  rw [buildLeg_fold_fst]
  set s1 := (List.range' start (stop - start)).foldl (knotParamStep false)
    stages with hs1
  have hs1len : s1.length = stages.length := knotParamStep_fold_length _ _ _
  have hknot : s1.getD (stop - 1) knotDefault =
      (let k := stages.getD (stop - 1) knotDefault
       k.addParameterization k.nx) := by
    have := knotParamStep_fold_getD_last false start (stop - start) stages
      (by omega) (by omega)
    rw [show start + (stop - start) - 1 = stop - 1 by omega] at this
    simpa using this
  rw [getD_set_self _ _ _ _ (by omega)]
  rw [hknot]
  exact ⟨rfl, rfl, rfl, rfl⟩

/-- Witness for claim C4's theorem on a concrete two-knot leg. -/
theorem buildLeg_last_knot_spec_witness :
    0 < 2 ∧ 2 ≤ demoStages.length ∧ buildLegLastKnotSpec demoStages [] 0 2 :=
  ⟨by decide, by decide, buildLeg_last_knot_spec demoStages [] 0 2
    (by decide) (by decide)⟩

/-! ## Claim C3: condensed-system assembly -/

/-- Value at position `j` of a fold over `List.range m`, read off right after
the distinguished iteration `k` when later iterations do not touch `j`. -/
theorem fold_range_getElem_at {α : Type} (step : List α → Nat → List α)
    (m k j : Nat) (l : List α) (target : α) (hk : k < m)
    (hkeep : ∀ acc i, k < i → i < m → (step acc i)[j]? = acc[j]?)
    (hval : (step ((List.range k).foldl step l) k)[j]? = some target) :
    ((List.range m).foldl step l)[j]? = some target := by
  rw [range_split k m hk, foldl_getElem?_last]
  · exact hval
  · intro acc i hi
    have hb := mem_range'_bounds hi
    exact hkeep acc i (by omega) (by omega)

theorem getD_map_lt {α β : Type} (f : α → β) (l : List α) (j : Nat)
    (d1 : β) (d2 : α) (h : j < l.length) :
    (l.map f).getD j d1 = f (l.getD j d2) := by
  rw [getD_eq_getElem?, getD_eq_getElem?, List.getElem?_map,
    List.getElem?_eq_getElem h]
  rfl

theorem condensedDiagStep_length (splitIdx : List Nat)
    (datas : List StageFactor) (acc : List Mat) (i : Nat) :
    (condensedDiagStep splitIdx datas acc i).length = acc.length := by
  simp [condensedDiagStep]

theorem condensedDiagStep_getElem_lt (splitIdx : List Nat)
    (datas : List StageFactor) (acc : List Mat) (i j : Nat)
    (h : j < 2 * (i + 1)) :
    (condensedDiagStep splitIdx datas acc i)[j]? = acc[j]? := by
  simp only [condensedDiagStep]
  rw [getElem?_set_ne _ _ (by omega : 2 * (i + 1) + 1 ≠ j)]
  rw [getElem?_set_ne _ _ (by omega : 2 * (i + 1) ≠ j)]

theorem condensedSuperStep_length (numLegs : Nat) (splitIdx : List Nat)
    (stages : List Knot) (datas : List StageFactor) (acc : List Mat)
    (i : Nat) :
    (condensedSuperStep numLegs splitIdx stages datas acc i).length =
      acc.length := by
  simp only [condensedSuperStep]
  split <;> simp

theorem condensedSuperStep_getElem_lt (numLegs : Nat) (splitIdx : List Nat)
    (stages : List Knot) (datas : List StageFactor) (acc : List Mat)
    (i j : Nat) (h : j < 2 * (i + 1)) :
    (condensedSuperStep numLegs splitIdx stages datas acc i)[j]? =
      acc[j]? := by
  simp only [condensedSuperStep]
  split
  · rw [getElem?_set_ne _ _ (by omega : 2 * (i + 1) + 1 ≠ j)]
    rw [getElem?_set_ne _ _ (by omega : 2 * (i + 1) ≠ j)]
  · rw [getElem?_set_ne _ _ (by omega : 2 * (i + 1) ≠ j)]

theorem condensedRhsStep_length (splitIdx : List Nat)
    (datas : List StageFactor) (acc : List Mat) (i : Nat) :
    (condensedRhsStep splitIdx datas acc i).length = acc.length := by
  simp [condensedRhsStep]

theorem condensedRhsStep_getElem_lt (splitIdx : List Nat)
    (datas : List StageFactor) (acc : List Mat) (i j : Nat)
    (h : j < 2 * (i + 1)) :
    (condensedRhsStep splitIdx datas acc i)[j]? = acc[j]? := by
  simp only [condensedRhsStep]
  rw [getElem?_set_ne _ _ (by omega : 2 * (i + 1) + 1 ≠ j)]
  rw [getElem?_set_ne _ _ (by omega : 2 * (i + 1) ≠ j)]

theorem condensedRhsStep_getElem_fst (splitIdx : List Nat)
    (datas : List StageFactor) (acc : List Mat) (i : Nat)
    (h : 2 * (i + 1) < acc.length) :
    (condensedRhsStep splitIdx datas acc i)[2 * (i + 1)]? =
      some (datas.getD (splitIdx.getD i 0) sfDefault).vm.vt := by
  simp only [condensedRhsStep]
  rw [getElem?_set_ne _ _ (by omega : 2 * (i + 1) + 1 ≠ 2 * (i + 1))]
  exact getElem?_set_self _ _ _ h

theorem condensedRhsStep_getElem_snd (splitIdx : List Nat)
    (datas : List StageFactor) (acc : List Mat) (i : Nat)
    (h : 2 * (i + 1) + 1 < acc.length) :
    (condensedRhsStep splitIdx datas acc i)[2 * (i + 1) + 1]? =
      some (datas.getD (splitIdx.getD (i + 1) 0) sfDefault).vm.pvec := by
  simp only [condensedRhsStep]
  exact getElem?_set_self _ _ _ (by rw [List.length_set]; omega)

theorem condensedDiagonal_length (numLegs : Nat) (splitIdx : List Nat)
    (datas : List StageFactor) (G0 : Mat) (mudyn : ℚ) :
    (condensedDiagonal numLegs splitIdx datas G0 mudyn).length =
      2 * numLegs := by
  simp only [condensedDiagonal]
  rw [foldl_length_keep _ _ _
    (fun acc i _ => condensedDiagStep_length splitIdx datas acc i)]
  simp

theorem condensedSuperdiagonal_length (numLegs : Nat) (splitIdx : List Nat)
    (stages : List Knot) (datas : List StageFactor) (G0 : Mat) :
    (condensedSuperdiagonal numLegs splitIdx stages datas G0).length =
      2 * numLegs - 1 := by
  simp only [condensedSuperdiagonal]
  rw [foldl_length_keep _ _ _
    (fun acc i _ => condensedSuperStep_length numLegs splitIdx stages datas acc i)]
  simp

theorem condensedRhsPre_length (numLegs : Nat) (splitIdx : List Nat)
    (datas : List StageFactor) (g0 : Mat) :
    (condensedRhsPre numLegs splitIdx datas g0).length = 2 * numLegs := by
  simp only [condensedRhsPre]
  rw [foldl_length_keep _ _ _
    (fun acc i _ => condensedRhsStep_length splitIdx datas acc i)]
  simp

theorem condensedDiagonal_getD_zero (numLegs : Nat) (splitIdx : List Nat)
    (datas : List StageFactor) (G0 : Mat) (mudyn : ℚ) (h : 1 ≤ numLegs) :
    (condensedDiagonal numLegs splitIdx datas G0 mudyn).getD 0 matDefault =
      Mat.smul (-mudyn) (Mat.identity G0.rows) := by
  simp only [condensedDiagonal]
  rw [getD_eq_getElem?, foldl_getElem?_keep _ _ _ _
    (fun acc i _ => condensedDiagStep_getElem_lt splitIdx datas acc i 0 (by omega))]
  rw [getElem?_set_ne _ _ (by omega : 1 ≠ 0)]
  rw [getElem?_set_self _ _ _ (by simp; omega)]
  rfl

theorem condensedDiagonal_getD_one (numLegs : Nat) (splitIdx : List Nat)
    (datas : List StageFactor) (G0 : Mat) (mudyn : ℚ) (h : 1 ≤ numLegs) :
    (condensedDiagonal numLegs splitIdx datas G0 mudyn).getD 1 matDefault =
      (datas.getD 0 sfDefault).vm.Pmat := by
  simp only [condensedDiagonal]
  rw [getD_eq_getElem?, foldl_getElem?_keep _ _ _ _
    (fun acc i _ => condensedDiagStep_getElem_lt splitIdx datas acc i 1 (by omega))]
  rw [getElem?_set_self _ _ _ (by simp; omega)]
  rfl

theorem condensedSuperdiagonal_getD_zero (numLegs : Nat) (splitIdx : List Nat)
    (stages : List Knot) (datas : List StageFactor) (G0 : Mat)
    (h : 1 ≤ numLegs) :
    (condensedSuperdiagonal numLegs splitIdx stages datas G0).getD 0
      matDefault = G0 := by
  simp only [condensedSuperdiagonal]
  rw [getD_eq_getElem?, foldl_getElem?_keep _ _ _ _
    (fun acc i _ =>
      condensedSuperStep_getElem_lt numLegs splitIdx stages datas acc i 0 (by omega))]
  rw [getElem?_set_ne _ _ (by omega : 1 ≠ 0)]
  rw [getElem?_set_self _ _ _ (by simp; omega)]
  rfl

theorem condensedSuperdiagonal_getD_one (numLegs : Nat) (splitIdx : List Nat)
    (stages : List Knot) (datas : List StageFactor) (G0 : Mat)
    (h : 2 ≤ numLegs) :
    (condensedSuperdiagonal numLegs splitIdx stages datas G0).getD 1
      matDefault = (datas.getD 0 sfDefault).vm.Vxt := by
  simp only [condensedSuperdiagonal]
  rw [getD_eq_getElem?, foldl_getElem?_keep _ _ _ _
    (fun acc i _ =>
      condensedSuperStep_getElem_lt numLegs splitIdx stages datas acc i 1 (by omega))]
  rw [getElem?_set_self _ _ _ (by simp; omega)]
  rfl

theorem condensedRhsPre_getD_zero (numLegs : Nat) (splitIdx : List Nat)
    (datas : List StageFactor) (g0 : Mat) (h : 1 ≤ numLegs) :
    (condensedRhsPre numLegs splitIdx datas g0).getD 0 matDefault = g0 := by
  simp only [condensedRhsPre]
  rw [getD_eq_getElem?, foldl_getElem?_keep _ _ _ _
    (fun acc i _ => condensedRhsStep_getElem_lt splitIdx datas acc i 0 (by omega))]
  rw [getElem?_set_ne _ _ (by omega : 1 ≠ 0)]
  rw [getElem?_set_self _ _ _ (by simp; omega)]
  rfl

theorem condensedRhsPre_getD_one (numLegs : Nat) (splitIdx : List Nat)
    (datas : List StageFactor) (g0 : Mat) (h : 1 ≤ numLegs) :
    (condensedRhsPre numLegs splitIdx datas g0).getD 1 matDefault =
      (datas.getD 0 sfDefault).vm.pvec := by
  simp only [condensedRhsPre]
  rw [getD_eq_getElem?, foldl_getElem?_keep _ _ _ _
    (fun acc i _ => condensedRhsStep_getElem_lt splitIdx datas acc i 1 (by omega))]
  rw [getElem?_set_self _ _ _ (by simp; omega)]
  rfl

theorem condensedRhsPre_getD_loop_fst (numLegs : Nat) (splitIdx : List Nat)
    (datas : List StageFactor) (g0 : Mat) (k : Nat) (hk : k < numLegs - 1) :
    (condensedRhsPre numLegs splitIdx datas g0).getD (2 * (k + 1))
      matDefault = (datas.getD (splitIdx.getD k 0) sfDefault).vm.vt := by
  simp only [condensedRhsPre]
  rw [getD_eq_getElem?]
  rw [fold_range_getElem_at _ (numLegs - 1) k (2 * (k + 1)) _ _ hk
    (fun acc i hki him =>
      condensedRhsStep_getElem_lt splitIdx datas acc i _ (by omega))
    (condensedRhsStep_getElem_fst splitIdx datas _ k (by
      rw [foldl_length_keep _ _ _
        (fun acc i _ => condensedRhsStep_length splitIdx datas acc i)]
      simp
      omega))]
  rfl

theorem condensedRhsPre_getD_loop_snd (numLegs : Nat) (splitIdx : List Nat)
    (datas : List StageFactor) (g0 : Mat) (k : Nat) (hk : k < numLegs - 1) :
    (condensedRhsPre numLegs splitIdx datas g0).getD (2 * (k + 1) + 1)
      matDefault =
      (datas.getD (splitIdx.getD (k + 1) 0) sfDefault).vm.pvec := by
  simp only [condensedRhsPre]
  rw [getD_eq_getElem?]
  rw [fold_range_getElem_at _ (numLegs - 1) k (2 * (k + 1) + 1) _ _ hk
    (fun acc i hki him =>
      condensedRhsStep_getElem_lt splitIdx datas acc i _ (by omega))
    (condensedRhsStep_getElem_snd splitIdx datas _ k (by
      rw [foldl_length_keep _ _ _
        (fun acc i _ => condensedRhsStep_length splitIdx datas acc i)]
      simp
      omega))]
  rfl

/-- Claim C3: `assembleCondensedSystem(mudyn)` builds a system of
`2*numLegs` diagonal blocks with `diagonal[0] = -mudyn * I(nc0)`,
`superdiagonal[0] = G0`, `diagonal[1] = Pmat` and `superdiagonal[1] = Vxt`
of the first stage factor, the subdiagonal equal to the blockwise transpose
of the superdiagonal, and the right-hand side the interleaved vector
`(g0, p0, vt per leg, p at each leg head)` multiplied by `-1`. -/
theorem condensed_assembly_spec (numLegs : Nat) (splitIdx : List Nat)
    (stages : List Knot) (datas : List StageFactor) (G0 g0 : Mat)
    (mudyn : ℚ) (h2 : 2 ≤ numLegs) :
    condensedSystemSpec numLegs splitIdx stages datas G0 g0 mudyn := by
  have h1 : 1 ≤ numLegs := by omega
  have hsl := condensedSuperdiagonal_length numLegs splitIdx stages datas G0
  have hrl := condensedRhsPre_length numLegs splitIdx datas g0
  rw [condensedSystemSpec]
  simp only [assembleCondensedSystem]
  refine ⟨condensedDiagonal_length numLegs splitIdx datas G0 mudyn,
    hsl, ?_, ?_,
    condensedDiagonal_getD_zero numLegs splitIdx datas G0 mudyn h1,
    condensedSuperdiagonal_getD_zero numLegs splitIdx stages datas G0 h1,
    condensedDiagonal_getD_one numLegs splitIdx datas G0 mudyn h1,
    condensedSuperdiagonal_getD_one numLegs splitIdx stages datas G0 h2,
    ?_, ?_, ?_, ?_⟩
  · rw [List.length_map, hsl]
  · rw [List.length_map, hrl]
  · intro i hi
    exact getD_map_lt Mat.transpose _ i matDefault matDefault (by omega)
  · rw [getD_map_lt (Mat.smul (-1)) _ 0 matDefault matDefault (by omega)]
    rw [condensedRhsPre_getD_zero numLegs splitIdx datas g0 h1]
  · rw [getD_map_lt (Mat.smul (-1)) _ 1 matDefault matDefault (by omega)]
    rw [condensedRhsPre_getD_one numLegs splitIdx datas g0 h1]
  · intro i hi
    constructor
    · rw [getD_map_lt (Mat.smul (-1)) _ (2 * (i + 1)) matDefault matDefault
        (by omega)]
      rw [condensedRhsPre_getD_loop_fst numLegs splitIdx datas g0 i hi]
    · rw [getD_map_lt (Mat.smul (-1)) _ (2 * (i + 1) + 1) matDefault
        matDefault (by omega)]
      rw [condensedRhsPre_getD_loop_snd numLegs splitIdx datas g0 i hi]

/-- Witness for claim C3's theorem at two legs over a four-knot problem. -/
theorem condensed_assembly_spec_witness :
    2 ≤ 2 ∧ condensedSystemSpec 2 (mkSplitIdx 3 2) demoStages []
      (Mat.identity 1) (Mat.zeroes 1 1) 1 :=
  ⟨by decide, condensed_assembly_spec 2 (mkSplitIdx 3 2) demoStages []
    (Mat.identity 1) (Mat.zeroes 1 1) 1 (by decide)⟩

/-! ## Claim C6: the forward pass distribution and leg parameters -/

theorem foldl_prod_split {α β γ : Type} (f : α → γ → α) (g : β → γ → β)
    (is : List γ) (a : α) (b : β) :
    is.foldl (fun acc i => (f acc.1 i, g acc.2 i)) (a, b) =
      (is.foldl f a, is.foldl g b) := by
  induction is generalizing a b with
  | nil => rfl
  | cons i is ih => exact ih (f a i) (g b i)

/-- The two components of the distribution loop are independent single-list
folds. -/
theorem distributeCondensed_eq (numLegs : Nat) (splitIdx : List Nat)
    (rhs xs lbdas : List Mat) :
    distributeCondensed numLegs splitIdx rhs xs lbdas =
      ((List.range numLegs).foldl
        (fun l i => l.set (splitIdx.getD i 0) (rhs.getD (2 * i) matDefault))
        lbdas,
       (List.range numLegs).foldl
        (fun l i =>
          l.set (splitIdx.getD i 0) (rhs.getD (2 * i + 1) matDefault))
        xs) := by
  rw [distributeCondensed]
  exact foldl_prod_split
    (fun l i => l.set (splitIdx.getD i 0) (rhs.getD (2 * i) matDefault))
    (fun l i => l.set (splitIdx.getD i 0) (rhs.getD (2 * i + 1) matDefault))
    (List.range numLegs) lbdas xs

/-- Value written by iteration `k` of a set-fold whose later iterations
target other positions. -/
theorem fold_set_getD_at {α : Type} (idx : Nat → Nat) (val : Nat → α)
    (m k : Nat) (l : List α) (d : α) (hk : k < m)
    (hne : ∀ i, k < i → i < m → idx i ≠ idx k)
    (hlen : idx k < l.length) :
    ((List.range m).foldl (fun acc i => acc.set (idx i) (val i)) l).getD
      (idx k) d = val k := by
  rw [getD_eq_getElem?]
  rw [fold_range_getElem_at (fun acc i => acc.set (idx i) (val i)) m k
    (idx k) l (val k) hk
    (fun acc i h1 h2 => getElem?_set_ne _ _ (hne i h1 h2))
    (getElem?_set_self _ _ _ (by
      rw [foldl_length_keep _ _ _ (fun acc i _ => List.length_set acc _ _)]
      exact hlen))]
  rfl

/-- Chaining the per-step strict increase of the split indices. -/
theorem splitIdx_chain (splitIdx : List Nat) (numLegs : Nat)
    (hmono : ∀ i, i < numLegs →
      splitIdx.getD i 0 < splitIdx.getD (i + 1) 0)
    (a b : Nat) (hab : a < b) (hb : b ≤ numLegs) :
    splitIdx.getD a 0 < splitIdx.getD b 0 := by
  induction b with
  | zero => omega
  | succ b ih =>
      rcases Nat.lt_or_ge a b with h | h
      · exact Nat.lt_trans (ih h (by omega)) (hmono b (by omega))
      · have hab2 : a = b := by omega
        subst hab2
        exact hmono a (by omega)

theorem map_congr_mem {α β : Type} (l : List α) (f g : α → β)
    (h : ∀ a, a ∈ l → f a = g a) : l.map f = l.map g := by
  induction l with
  | nil => rfl
  | cons x xs ih =>
      rw [List.map_cons, List.map_cons, h x (List.mem_cons_self x xs),
        ih fun a ha => h a (List.mem_cons_of_mem x ha)]

/-- Claim C6: `ParallelRiccatiSolver::forward` writes
`lbdas[splitIdx[i]] = condensed block 2i` and
`xs[splitIdx[i]] = condensed block 2i+1` for every leg, then runs each leg's
forward pass with `θ` equal to the next leg's distributed `λ` at
`splitIdx[i+1]` (which is condensed block `2(i+1)`), the last leg running
with no `θ`. -/
theorem parallel_forward_spec (legForward : LegForward) (numLegs : Nat)
    (splitIdx : List Nat) (stages : List Knot) (datas : List StageFactor)
    (rhs xs us vs lbdas : List Mat)
    (hmono : ∀ i, i < numLegs →
      splitIdx.getD i 0 < splitIdx.getD (i + 1) 0)
    (hlb : splitIdx.getD numLegs 0 ≤ lbdas.length)
    (hxs : xs.length = lbdas.length) :
    forwardSpec legForward numLegs splitIdx stages datas rhs xs us vs
      lbdas := by
  have hidx : ∀ k, k < numLegs → splitIdx.getD k 0 < lbdas.length := by
    intro k hkm
    have := splitIdx_chain splitIdx numLegs hmono k numLegs hkm
      (Nat.le_refl numLegs)
    omega
  have hdist := distributeCondensed_eq numLegs splitIdx rhs xs lbdas
  have hfst : ∀ k, k < numLegs →
      (distributeCondensed numLegs splitIdx rhs xs lbdas).1.getD
        (splitIdx.getD k 0) matDefault = rhs.getD (2 * k) matDefault := by
    intro k hk
    rw [hdist]
    exact fold_set_getD_at (fun i => splitIdx.getD i 0) _ numLegs k lbdas
      matDefault hk
      (fun i h1 h2 =>
        Nat.ne_of_gt (splitIdx_chain splitIdx numLegs hmono k i h1
          (Nat.le_of_lt h2)))
      (hidx k hk)
  have hsnd : ∀ k, k < numLegs →
      (distributeCondensed numLegs splitIdx rhs xs lbdas).2.getD
        (splitIdx.getD k 0) matDefault =
        rhs.getD (2 * k + 1) matDefault := by
    intro k hk
    rw [hdist]
    exact fold_set_getD_at (fun i => splitIdx.getD i 0) _ numLegs k xs
      matDefault hk
      (fun i h1 h2 =>
        Nat.ne_of_gt (splitIdx_chain splitIdx numLegs hmono k i h1
          (Nat.le_of_lt h2)))
      (by
        show splitIdx.getD k 0 < xs.length
        have h3 := hidx k hk
        omega)
  rw [forwardSpec]
  refine ⟨fun i hi => ⟨hfst i hi, hsnd i hi⟩, ?_⟩
  rw [ParallelRiccatiSolver.forward]
  have hlegs : (List.range numLegs).map
      (forwardLeg legForward numLegs splitIdx stages datas
        (distributeCondensed numLegs splitIdx rhs xs lbdas).2 us vs
        (distributeCondensed numLegs splitIdx rhs xs lbdas).1) =
      (List.range numLegs).map fun i =>
        legForward
          (sliceOf stages (splitIdx.getD i 0) (splitIdx.getD (i + 1) 0))
          (sliceOf datas (splitIdx.getD i 0) (splitIdx.getD (i + 1) 0))
          (sliceOf (distributeCondensed numLegs splitIdx rhs xs lbdas).2
            (splitIdx.getD i 0) (splitIdx.getD (i + 1) 0))
          (sliceOf us (splitIdx.getD i 0) (splitIdx.getD (i + 1) 0))
          (sliceOf vs (splitIdx.getD i 0) (splitIdx.getD (i + 1) 0))
          (sliceOf (distributeCondensed numLegs splitIdx rhs xs lbdas).1
            (splitIdx.getD i 0) (splitIdx.getD (i + 1) 0))
          (if i = numLegs - 1 then none
           else some (rhs.getD (2 * (i + 1)) matDefault)) := by
    refine map_congr_mem _ _ _ fun i hi => ?_
    rw [List.mem_range] at hi
    rw [forwardLeg]
    by_cases hlast : i = numLegs - 1
    · rw [if_pos hlast, if_pos hlast]
    · rw [if_neg hlast, if_neg hlast]
      rw [hfst (i + 1) (by omega)]
  rw [hlegs]

/-- Witness for claim C6's theorem: two legs over four knots with a trivial
per-leg forward pass. -/
theorem parallel_forward_spec_witness :
    (∀ i, i < 2 → (mkSplitIdx 3 2).getD i 0 <
      (mkSplitIdx 3 2).getD (i + 1) 0) ∧
    (mkSplitIdx 3 2).getD 2 0 ≤ (List.replicate 4 matDefault).length ∧
    (List.replicate 4 matDefault).length =
      (List.replicate 4 matDefault).length ∧
    forwardSpec demoLegForward 2 (mkSplitIdx 3 2) demoStages []
      (List.replicate 4 matDefault) (List.replicate 4 matDefault) [] []
      (List.replicate 4 matDefault) :=
  ⟨by decide, by decide, by decide,
    parallel_forward_spec demoLegForward 2 (mkSplitIdx 3 2) demoStages []
      (List.replicate 4 matDefault) (List.replicate 4 matDefault) [] []
      (List.replicate 4 matDefault) (by decide) (by decide) (by decide)⟩

end AligatorSpec
